import Mathlib

/-!
Verification of the `dbn` live market-data client (session engine in
`src/libdbn/dbn.c`, OSI parser in `src/libdbnopra/osi.c`, discovery engine in
`src/libdbnopra/dbn_opra_discover.c`) against its natural-language
specification.

Bytes are modelled as `Nat` values (< 256 where it matters); a C string is
modelled as the list of its bytes up to, and not including, the terminating
NUL (so `strlen` is `List.length` and the list contains no `0`).
Machine-integer truncation (`uint8_t`, `uint64_t` assignment) is modelled with
explicit `% 256` / `% 2 ^ 64`.
-/

/-- C `strcmp` on NUL-terminated strings, modelled on byte lists: the sign of
the difference of the first differing bytes, the end of a string reading as
byte 0. -/
def c_strcmp : List Nat → List Nat → Int
  | [], [] => 0
  | [], b :: _ => 0 - (b : Int)
  | a :: _, [] => (a : Int)
  | a :: as, b :: bs => if a = b then c_strcmp as bs else (a : Int) - (b : Int)

/-- Reading a fixed-size `char` array as a C string: the bytes before the
first NUL. -/
def cstr (a : List Nat) : List Nat := a.takeWhile (fun b => b ≠ 0)

/-- C `isspace` for the bytes that `strtol` skips. -/
def isSpaceByte (b : Nat) : Bool := b = 32 || (9 ≤ b && b ≤ 13)

/-- Decimal digit test. -/
def isDigitByte (b : Nat) : Bool := 48 ≤ b && b ≤ 57

/-- Value of the leading run of decimal digits of a byte string (0 when the
string does not start with a digit), as `strtol` accumulates it. -/
def digitsVal (s : List Nat) : Int :=
  (s.takeWhile isDigitByte).foldl (fun (a : Int) (b : Nat) => 10 * a + ((b : Int) - 48)) 0

/-- C `strtol(s, NULL, 10)` for the short digit groups `osi_parse` feeds it
(at most 8 digits, so no `LONG_MAX` clamping): skip leading whitespace, read
an optional sign, then the leading run of decimal digits. -/
def c_strtol (s : List Nat) : Int :=
  match s.dropWhile isSpaceByte with
  | [] => 0
  | b :: rest =>
    if b = 43 then digitsVal rest
    else if b = 45 then 0 - digitsVal rest
    else digitsVal (b :: rest)

/-- Truncating assignment of a C `long` to a `uint8_t`. -/
def toU8 (i : Int) : Nat := (i % 256).toNat

/-- Truncating assignment of a C `long` to a `uint64_t`. -/
def toU64 (i : Int) : Nat := (i % (2 ^ 64)).toNat

/-! ## OSI symbol parser (`src/libdbnopra/osi.c`, `osi_parse`) -/

/-- Decoded OSI symbol, the `osi_t` struct of `src/include/osi.h` (the `pad`
bytes carry no information and are omitted). `root` is the full 7-byte
`char root[7]` array. -/
structure Osi where
  root : List Nat
  exp_year : Nat
  exp_month : Nat
  exp_day : Nat
  is_call : Bool
  strike : Nat
deriving DecidableEq, Repr

/-- The uninitialized `osi_t` a caller passes in (`osi_parse` writes every
field before returning `true`, so the initial contents never escape). -/
def osiZero : Osi := ⟨[0, 0, 0, 0, 0, 0, 0], 0, 0, 0, false, 0⟩

/-- `osi_parse` of `src/libdbnopra/osi.c`: takes the symbol (as a C string)
and the caller's `osi_t`, returns the C `bool` result and the `osi_t` as left
by the call.  Field by field from the source: length-21 check first; `root[6]=0`,
6-byte copy, then every space among `root[0..6]` set to NUL; two-digit
`strtol` groups for year/month/day (stored through `uint8_t`); byte 12
compared with `'C'`; 8-digit `strtol` strike scaled by 1,000,000 (stored
through `uint64_t`). -/
def osi_parse (symbol : List Nat) (osi : Osi) : Bool × Osi :=
  if symbol.length ≠ 21 then (false, osi)
  else
    let root := (symbol.take 6 ++ [0]).map (fun b => if b = 32 then 0 else b)
    let exp_year := toU8 (c_strtol ((symbol.drop 6).take 2))
    let exp_month := toU8 (c_strtol ((symbol.drop 8).take 2))
    let exp_day := toU8 (c_strtol ((symbol.drop 10).take 2))
    let is_call := symbol.getD 12 0 = 67
    let strike := toU64 (1000000 * c_strtol ((symbol.drop 13).take 8))
    (true, ⟨root, exp_year, exp_month, exp_day, is_call, strike⟩)

/-- Root field as the specification's sentence reads: bytes 0..5 with the
TRAILING spaces trimmed to NUL (interior spaces kept), padded with NULs to the
7-byte array. Stated from the spec for comparison with `osi_parse`. -/
def rootTrailTrim (symbol : List Nat) : List Nat :=
  let r := ((symbol.take 6).reverse.dropWhile (fun b => b = 32)).reverse
  r ++ List.replicate (7 - r.length) 0

/-! ## Session engine: record decode loop and `dbn_get` (`src/libdbn/dbn.c`) -/

/-- Error kinds of spec §7. The code reports errors through the error handler
with a message and an `errno`; the kinds are the spec's names for them
("Stream header has invalid signature" / "unsupported" / "Bad message length"
→ `protocolError`, "Connection closed unexpectedly" → `connectionLost`,
"Leftover data would cause buffer overflow" → `bufferOverflow`). -/
inductive ErrKind where
  | transportError
  | authDenied
  | protocolError
  | connectionLost
  | bufferOverflow
  | gatewayError
deriving DecidableEq, Repr

/-- Outcome of the message-decode loop of `dbn_get` (dbn.c lines 799-824):
the `num_messages` counter, the records passed to the message handler in
order, and either the residual bytes (`done`) or the bad decoded length that
aborted the loop (`badLength`). -/
inductive LoopOut where
  | done (count : Nat) (dispatched : List (List Nat)) (rest : List Nat)
  | badLength (count : Nat) (dispatched : List (List Nat)) (rlength : Nat)
deriving DecidableEq, Repr

/-- Fuel-indexed form of the decode loop; each iteration consumes at least 16
bytes, so `data.length` fuel always suffices (`decodeLoopF_congr`). The
fuel-0 row coincides with the `n < 16` exit, which is the only reachable case
there. -/
def decodeLoopF : Nat → List Nat → Nat → List (List Nat) → LoopOut
  | 0, data, count, dispatched => .done count dispatched data
  | fuel + 1, data, count, dispatched =>
    if data.length < 16 then .done count dispatched data
    else
      let rlength := 4 * data.headD 0
      if rlength < 16 then .badLength count dispatched rlength
      else if data.length < rlength then .done count dispatched data
      else decodeLoopF fuel (data.drop rlength) (count + 1) (dispatched ++ [data.take rlength])

/-- The decode loop of `dbn_get`: starting from `data`, repeatedly read
`rlength = 4 * ptr[0]`, fail below 16, stop when fewer than a header or a
record remains, otherwise dispatch the record and advance. -/
def decodeLoop (data : List Nat) (count : Nat) (dispatched : List (List Nat)) : LoopOut :=
  decodeLoopF data.length data count dispatched

/-- Client session state read and written by `dbn_get`: the buffer capacity
and the leftover buffer contents (`leftover`, `leftover_count` of `dbn_t`). -/
structure Dbn where
  capacity : Nat
  leftover : List Nat
deriving DecidableEq, Repr

/-- What one `io_uring` completion hands `dbn_get`: a signal interruption of
the wait (`-EINTR`), transport EOF (`res == 0`), or `res > 0` bytes of
payload. -/
inductive Delivery where
  | interrupted
  | closed
  | bytes (d : List Nat)
deriving DecidableEq, Repr

/-- Observable outcome of one `dbn_get` call: the returned `int`, the records
passed to the message handler in order, the error-handler invocations (fatal
flag and kind) in order, and the session state left behind. -/
structure GetResult where
  ret : Int
  dispatched : List (List Nat)
  errors : List (Bool × ErrKind)
  st : Dbn
deriving DecidableEq, Repr

/-- `dbn_get` of `src/libdbn/dbn.c` (lines 719-848). On `-EINTR` return 0; on
EOF fail `connectionLost`; otherwise prepend the leftover bytes (failing
`bufferOverflow` if they would not fit), run the decode loop, store the
residue as the new leftover, and return the number of records dispatched. -/
def dbn_get (dbn : Dbn) (ev : Delivery) : GetResult :=
  match ev with
  | .interrupted => ⟨0, [], [], dbn⟩
  | .closed => ⟨-1, [], [(true, ErrKind.connectionLost)], dbn⟩
  | .bytes d =>
    if dbn.leftover.length ≠ 0 ∧ dbn.leftover.length + d.length > dbn.capacity then
      ⟨-1, [], [(true, ErrKind.bufferOverflow)], dbn⟩
    else
      let data := dbn.leftover ++ d
      match decodeLoop data 0 [] with
      | .badLength _ disp _ => ⟨-1, disp, [(true, ErrKind.protocolError)], ⟨dbn.capacity, []⟩⟩
      | .done count disp rest => ⟨(count : Int), disp, [], ⟨dbn.capacity, rest⟩⟩

/-- Repeated `dbn_get` calls over a sequence of payload deliveries; `none` as
soon as a call reports any error, otherwise the concatenation of everything
dispatched plus the final session state. -/
def runDeliveries (st : Dbn) : List (List Nat) → Option (List (List Nat) × Dbn)
  | [] => some ([], st)
  | d :: ds =>
    let r := dbn_get st (.bytes d)
    if r.errors = [] then (runDeliveries r.st ds).map (fun p => (r.dispatched ++ p.1, p.2))
    else none

/-- A well-formed wire record: at least a 16-byte header, total length equal
to the decoded `4 * rlength` of its first byte, first byte a byte. -/
def ValidRecord (r : List Nat) : Prop :=
  16 ≤ r.length ∧ r.length = 4 * r.headD 0 ∧ r.headD 0 ≤ 255

/-- The validity predicate is decidable, so witnesses can check it on
concrete records. -/
instance ValidRecord.dec (r : List Nat) : Decidable (ValidRecord r) :=
  inferInstanceAs (Decidable (16 ≤ r.length ∧ r.length = 4 * r.headD 0 ∧ r.headD 0 ≤ 255))

/-- `p` is a (possibly empty) incomplete prefix of the record sequence `rs`:
empty, or a proper prefix of the first record of `rs`. This is the shape of
the leftover buffer between `dbn_get` calls. -/
def IncompleteFor (p : List Nat) (rs : List (List Nat)) : Prop :=
  p = [] ∨ ∃ r rs2, rs = r :: rs2 ∧ p.length < r.length ∧ p = r.take p.length

/-! ## Session engine: stream preamble check (`dbn_start`, dbn.c 600-654) -/

/-- Check of the 8 preamble bytes read by `dbn_start` after
`start_session=0`: `strncmp` of the first three bytes against `"DBN"`, then
the version byte against 1; on success the little-endian `u32` header length.
Both failures invoke the error handler fatally and `dbn_start` returns -1. -/
def dbn_start_preamble (pre : List Nat) : Except (Bool × ErrKind) Nat :=
  if pre.take 3 ≠ [68, 66, 78] then .error (true, ErrKind.protocolError)
  else if pre.getD 3 0 ≠ 1 then .error (true, ErrKind.protocolError)
  else .ok (pre.getD 4 0 + 256 * pre.getD 5 0 + 65536 * pre.getD 6 0 + 16777216 * pre.getD 7 0)

/-! ## Session engine: subscription lines (`dbn_start`, dbn.c 490-594) -/

/-- The `symbols=` payload of one subscription line as the inner `for (j ...)`
loop builds it: each symbol followed by the suffix, comma-separated, the last
one followed by the newline. Chunks handed to it are never empty. -/
def symbolsCsv (suffix : String) : List String → String
  | [] => ""
  | [r] => r ++ suffix ++ "\n"
  | r :: rest => r ++ suffix ++ "," ++ symbolsCsv suffix rest

/-- One subscription line for one chunk, from the two `snprintf` format
strings (with and without `start=0|`). -/
def chunkLine (schema symbology : String) (chunk : List String) (suffix : String)
    (replay is_last : Bool) : String :=
  "schema=" ++ schema ++ "|stype_in=" ++ symbology ++
    (if replay then "|start=0" else "") ++ "|is_last=" ++ (if is_last then "1" else "0") ++
    "|symbols=" ++ symbolsCsv suffix chunk

/-- Fuel-indexed form of the chunking loop `for (i = 0; i < num_roots; i += 1000)`;
`roots.length` fuel always suffices (`subChunksF_congr`). -/
def subChunksF (schema symbology suffix : String) (replay : Bool) :
    Nat → List String → List String
  | 0, _ => []
  | fuel + 1, roots =>
    if roots.length ≤ 1000 then [chunkLine schema symbology roots suffix replay true]
    else
      chunkLine schema symbology (roots.take 1000) suffix replay false ::
        subChunksF schema symbology suffix replay fuel (roots.drop 1000)

/-- The subscription lines sent for a non-empty symbol list: chunks of at
most 1000 symbols, `is_last` true exactly when `i + 1000 >= num_roots`. -/
def subscribeChunks (schema symbology suffix : String) (replay : Bool)
    (roots : List String) : List String :=
  subChunksF schema symbology suffix replay (roots.length + 1) roots

/-- All subscription lines `dbn_start` sends before `start_session=0`: the
special `ALL_SYMBOLS` line for zero symbols (no `is_last` field), otherwise
one line per 1000-symbol chunk. -/
def dbn_start_lines (schema symbology : String) (roots : List String) (suffix : String)
    (replay : Bool) : List String :=
  if roots.length = 0 then
    ["schema=" ++ schema ++ "|stype_in=" ++ symbology ++
      (if replay then "|start=0" else "") ++ "|symbols=ALL_SYMBOLS\n"]
  else subscribeChunks schema symbology suffix replay roots

/-- Everything `dbn_start` writes to the socket before reading the stream
preamble: the subscription lines, then the literal `start_session=0` line. -/
def dbn_start_sent (schema symbology : String) (roots : List String) (suffix : String)
    (replay : Bool) : List String :=
  dbn_start_lines schema symbology roots suffix replay ++ ["start_session=0\n"]

/-! ## Session engine: authentication line (`dbn_connect`, dbn.c 379-439) -/

/-- One byte as two hex characters, the `snprintf("%02x")` of the hex loop
(exactly two lowercase digits for a byte value < 256). -/
def hexByte (b : Nat) : List Char :=
  ["0123456789abcdef".toList.getD (b / 16 % 16) '0',
    "0123456789abcdef".toList.getD (b % 16) '0']

/-- The 64-character token body as the code's loop writes it: `%02x` of
`hash[i]` at position `2 i` for `i = 0 .. 31`. -/
def hexLoop (hash : List Nat) : String :=
  String.mk ((List.range 32).foldl (fun acc i => acc ++ hexByte (hash.getD i 0)) [])

/-- Lowercase hex encoding of a byte string, as the spec words it. Stated
from the spec for comparison with `hexLoop`. -/
def lowercaseHex (bytes : List Nat) : String :=
  String.mk (bytes.map hexByte).flatten

/-- `strcpy(bucket_id, api_key + strlen(api_key) - 5)`. -/
def bucketId (api_key : String) : String :=
  String.mk (api_key.toList.drop (api_key.length - 5))

/-- The last five characters of a string, as the spec words it. Stated from
the spec for comparison with `bucketId`. -/
def lastFive (s : String) : String :=
  String.mk ((s.toList.reverse.take 5).reverse)

/-- The string `dbn_connect` hashes: `snprintf("%s|%s", cram, api_key)`. -/
def ccram (cram api_key : String) : String := cram ++ "|" ++ api_key

/-- The authentication line `dbn_connect` sends, built as the code does from
the `snprintf` format `"auth=%s-%s|dataset=%s|encoding=dbn|ts_out=%d\n"`.
`H` stands for libsodium's `crypto_hash_sha256` (external to this repository):
the byte string it maps the hashed message to. -/
def dbn_connect_auth_line (H : String → List Nat) (cram api_key dataset : String)
    (ts_out : Bool) : String :=
  "auth=" ++ hexLoop (H (ccram cram api_key)) ++ "-" ++ bucketId api_key ++
    "|dataset=" ++ dataset ++ "|encoding=dbn|ts_out=" ++ (if ts_out then "1" else "0") ++ "\n"

/-! ## Discovery engine (`src/libdbnopra/dbn_opra_discover.c`) -/

/-- Discovery lifecycle states, `dbn_opra_discover_state_t`. -/
inductive DState where
  | notStarted
  | connected
  | subscribed
  | xref
  | done
  | error
deriving DecidableEq, Repr

/-- One discovered option, `dbn_opra_discover_option_t`; `sdef` models the
cross-referenced pointer as the matched definition's instrument id. -/
structure DOption where
  instrument_id : Nat
  symbol : Osi
  sdef : Option Nat
deriving DecidableEq, Repr

/-- One root entry, `dbn_opra_discover_root_t` (capacity bookkeeping of the
growable array is not observable and is omitted). -/
structure DRoot where
  root : List Nat
  options : List DOption
deriving DecidableEq, Repr

/-- Discovery context, `dbn_opra_discover_t`. The 50,000-bucket definition
index is modelled by the list of received definition instrument ids in
arrival order: bucket `b` holds, in order, exactly the receipts with
`id % 50000 = b`, so the bucket scan is a scan of that sublist. -/
structure Discover where
  state : DState
  roots : List DRoot
  error : Option (List Nat)
  sdefs : List Nat
  stop : Bool
  num_options : Nat
  num_sdefs : Nat
deriving DecidableEq, Repr

/-- Freshly initialized context (`dbn_opra_discover_init` zeroes it). -/
def discoverInit : Discover := ⟨DState.notStarted, [], none, [], false, 0, 0⟩

/-- The fields of the incoming records that `on_msg` reads, by `rtype`:
symbol mappings (header instrument id and the `stype_out_symbol` C string),
security definitions (header instrument id), system and error messages (the
64-byte text as a C string), and everything else (ignored). -/
inductive Msg where
  | smap (instrument_id : Nat) (stype_out : List Nat)
  | sdef (instrument_id : Nat)
  | smsg (text : List Nat)
  | emsg (text : List Nat)
  | other
deriving DecidableEq, Repr

/-- Insertion at an index, the `memmove` shift of the root insert. -/
def listInsertAt (l : List DRoot) (i : Nat) (a : DRoot) : List DRoot :=
  l.take i ++ a :: l.drop i

/-- The loop body of the idiosyncratic binary search (dbn_opra_discover.c
lines 79-137), fuel-indexed; the concrete evaluations below never exhaust the
fuel `findRoot` supplies. State is `(last_index, index, step)` exactly as in
the source; returns `(insertion_point, insertion_needed)`. -/
def searchLoop (key : List Nat) (roots : List DRoot) :
    Nat → Nat → Nat → Nat → Nat × Bool
  | _, _, index, 0 => (index, false)
  | last_index, index, step, fuel + 1 =>
    let d := c_strcmp key (roots.getD index ⟨[], []⟩).root
    if d = 0 then (index, false)
    else if d < 0 then
      if index = 0 then (0, true)
      else if last_index = index - 1 then (index, true)
      else
        let step1 := if step / 2 = 0 then 1 else step / 2
        let index1 := if step1 > index then 0 else index - step1
        searchLoop key roots index index1 step1 fuel
    else
      if index = roots.length - 1 then (roots.length, true)
      else if last_index = index + 1 then (index + 1, true)
      else
        let step1 := if step / 2 = 0 then 1 else step / 2
        let index1 := if index + step1 ≥ roots.length then roots.length - 1 else index + step1
        searchLoop key roots index index1 step1 fuel

/-- Binary search entry: `last_index = 0`, `index = step = num_roots / 2`,
empty table short-circuits to insertion at 0. -/
def findRoot (key : List Nat) (roots : List DRoot) : Nat × Bool :=
  if roots.length = 0 then (0, true)
  else searchLoop key roots 0 (roots.length / 2) (roots.length / 2) (2 * roots.length + 64)

/-- The ASCII bytes of `"Finished definition replay"`. -/
def finishedReplayBytes : List Nat :=
  [70, 105, 110, 105, 115, 104, 101, 100, 32, 100, 101, 102, 105, 110, 105, 116,
    105, 111, 110, 32, 114, 101, 112, 108, 97, 121]

/-- The discovery message handler `on_msg` (dbn_opra_discover.c lines
52-260). SMAP: parse the OSI symbol (discard on reject), search the roots,
insert a new root if needed (its text the `strlen`-bounded copy of
`osi.root`), and append the option to the root at the insertion point. SDEF:
append to the bucket of `instrument_id % 50000`. SMSG with the replay-done
text: state := XREF. EMSG: store the text, state := ERROR. -/
def on_msg (d : Discover) (m : Msg) : Discover :=
  match m with
  | .smap iid sym =>
    match osi_parse sym osiZero with
    | (false, _) => d
    | (true, osi) =>
      let key := cstr osi.root
      let pr := findRoot key d.roots
      let roots1 := if pr.2 then listInsertAt d.roots pr.1 ⟨key, []⟩ else d.roots
      let entry := roots1.getD pr.1 ⟨[], []⟩
      let roots2 := roots1.set pr.1
        ⟨entry.root, entry.options ++ [⟨iid, osi, none⟩]⟩
      { d with roots := roots2, num_options := d.num_options + 1 }
  | .sdef iid => { d with sdefs := d.sdefs ++ [iid], num_sdefs := d.num_sdefs + 1 }
  | .smsg text => if text = finishedReplayBytes then { d with state := DState.xref } else d
  | .emsg text => { d with error := some text, state := DState.error }
  | .other => d

/-- The session error handler `on_error` (lines 29-46): on a fatal error save
the text and transition to ERROR; non-fatal errors are ignored. -/
def on_error (d : Discover) (fatal : Bool) (text : List Nat) : Discover :=
  if fatal then { d with error := some text, state := DState.error } else d

/-- The cross-reference pass (worker lines 300-318): for every option, scan
the bucket `instrument_id % 50000` in arrival order and attach the first
definition with an equal instrument id. -/
def xrefPass (d : Discover) : Discover :=
  { d with roots := d.roots.map (fun r =>
      ⟨r.root, r.options.map (fun o =>
        match (d.sdefs.filter (fun s => s % 50000 = o.instrument_id % 50000)).find?
            (fun s => s = o.instrument_id) with
        | some s => ⟨o.instrument_id, o.symbol, some s⟩
        | none => o)⟩) }

/-- What one iteration of the worker's `dbn_get` loop can feed the context:
a decoded record, or a fatal session error reported through the error
handler (which runs on the worker thread). -/
inductive WorkerEvent where
  | msg (m : Msg)
  | fatalError (text : List Nat)
deriving DecidableEq, Repr

/-- Apply one worker event to the context. -/
def stepEvent (d : Discover) (e : WorkerEvent) : Discover :=
  match e with
  | .msg m => on_msg d m
  | .fatalError t => on_error d true t

/-- The worker's receive loop: `while (!stop && state == SUBSCRIBED)
dbn_get(...)`, each event standing for what one `dbn_get` delivered. -/
def workerLoop (d : Discover) : List WorkerEvent → Discover
  | [] => d
  | e :: es =>
    if d.stop = false ∧ d.state = DState.subscribed then workerLoop (stepEvent d e) es else d

/-- The worker body after a successful `dbn_start` (lines 283-325): set
SUBSCRIBED, run the receive loop, run the cross-reference pass, set DONE.
The source performs the last two steps unconditionally. -/
def worker_run (d : Discover) (events : List WorkerEvent) : Discover :=
  let d1 := { d with state := DState.subscribed }
  let d2 := workerLoop d1 events
  let d3 := xrefPass d2
  { d3 with state := DState.done }

/-- Computable check that adjacent roots are in strictly increasing
`strcmp` order. -/
def strictlySortedRootsB : List DRoot → Bool
  | [] => true
  | [_] => true
  | a :: b :: t => (decide (c_strcmp a.root b.root < 0)) && strictlySortedRootsB (b :: t)

/-- Strict ASCII order of the roots table, the spec's invariant. -/
def StrictlySortedRoots (l : List DRoot) : Prop :=
  strictlySortedRootsB l = true

/-! ## Concrete inputs used to settle the claims -/

/-- ASCII bytes of the OSI symbol `"AAPL  250815C00100000"`. -/
def aaplSym : List Nat :=
  [65, 65, 80, 76, 32, 32, 50, 53, 48, 56, 49, 53, 67, 48, 48, 49, 48, 48, 48, 48, 48]

/-- ASCII bytes of the OSI symbol `"MSFT  250815C00100000"`. -/
def msftSym : List Nat :=
  [77, 83, 70, 84, 32, 32, 50, 53, 48, 56, 49, 53, 67, 48, 48, 49, 48, 48, 48, 48, 48]

/-- ASCII bytes of the OSI symbol `"BB    250815C00100000"`. -/
def bbSym : List Nat :=
  [66, 66, 32, 32, 32, 32, 50, 53, 48, 56, 49, 53, 67, 48, 48, 49, 48, 48, 48, 48, 48]

/-- ASCII bytes of the OSI symbol `"CC    250815C00100000"`. -/
def ccSym : List Nat :=
  [67, 67, 32, 32, 32, 32, 50, 53, 48, 56, 49, 53, 67, 48, 48, 49, 48, 48, 48, 48, 48]

/-- ASCII bytes of the OSI symbol `"AA    250815C00100000"`. -/
def aaSym : List Nat :=
  [65, 65, 32, 32, 32, 32, 50, 53, 48, 56, 49, 53, 67, 48, 48, 49, 48, 48, 48, 48, 48]

/-- ASCII bytes of the OSI symbol `"TSLA  250815C00100000"` of the spec's
concrete scenario. -/
def tslaSym : List Nat :=
  [84, 83, 76, 65, 32, 32, 50, 53, 48, 56, 49, 53, 67, 48, 48, 49, 48, 48, 48, 48, 48]

/-- ASCII bytes of `"A B   250815C00100000"`, a 21-byte input whose root part
has an interior space. -/
def spacedRootSym : List Nat :=
  [65, 32, 66, 32, 32, 32, 50, 53, 48, 56, 49, 53, 67, 48, 48, 49, 48, 48, 48, 48, 48]

/-- Unsigned decimal value of a digit-byte string, as the spec words the
two-digit and eight-digit groups of an OSI symbol. -/
def digitsNatVal (s : List Nat) : Nat :=
  s.foldl (fun acc b => 10 * acc + (b - 48)) 0

/-! ## Lemmas about the decode loop -/

theorem decodeLoopF_congr : ∀ f1 f2 (data : List Nat) c a, data.length ≤ f1 → data.length ≤ f2 →
    decodeLoopF f1 data c a = decodeLoopF f2 data c a := by
  intro f1
  induction f1 with
  | zero =>
    intro f2 data c a h1 h2
    have hd : data = [] := List.length_eq_zero.mp (Nat.le_zero.mp h1)
    subst hd
    cases f2 <;> simp [decodeLoopF]
  | succ n ih =>
    intro f2 data c a h1 h2
    by_cases h16 : data.length < 16
    · cases f2 <;> simp [decodeLoopF, h16]
    · cases f2 with
      | zero => omega
      | succ m =>
        simp only [decodeLoopF, if_neg h16, List.headD_eq_head?_getD]
        by_cases hbad : 4 * data.head?.getD 0 < 16
        · simp [hbad]
        · simp only [if_neg hbad]
          by_cases hlen : data.length < 4 * data.head?.getD 0
          · simp [hlen]
          · simp only [if_neg hlen]
            exact ih m _ _ _ (by simp [List.length_drop]; omega)
              (by simp [List.length_drop]; omega)

theorem decodeLoop_eq (data : List Nat) (c : Nat) (a : List (List Nat)) :
    decodeLoop data c a =
      if data.length < 16 then .done c a data
      else if 4 * data.headD 0 < 16 then .badLength c a (4 * data.headD 0)
      else if data.length < 4 * data.headD 0 then .done c a data
      else decodeLoop (data.drop (4 * data.headD 0)) (c + 1)
        (a ++ [data.take (4 * data.headD 0)]) := by
  cases data with
  | nil => simp [decodeLoop, decodeLoopF]
  | cons x xs =>
    show decodeLoopF (xs.length + 1) (x :: xs) c a = _
    simp only [decodeLoopF, List.headD_cons, List.head?_cons, Option.getD_some, List.length_cons,
      List.headD_eq_head?_getD]
    by_cases h16 : xs.length + 1 < 16
    · simp [h16]
    · simp only [if_neg h16]
      by_cases hbad : 4 * x < 16
      · simp [hbad]
      · simp only [if_neg hbad]
        by_cases hlen : xs.length + 1 < 4 * x
        · simp [hlen]
        · simp only [if_neg hlen]
          unfold decodeLoop
          apply decodeLoopF_congr
          · simp only [List.length_drop, List.length_cons]
            omega
          · simp [List.length_drop]

theorem decodeLoopF_done_count : ∀ fuel (data : List Nat) c a k disp rest,
    decodeLoopF fuel data c a = .done k disp rest → k + a.length = disp.length + c := by
  intro fuel
  induction fuel with
  | zero =>
    intro data c a k disp rest h
    simp only [decodeLoopF] at h
    cases h
    omega
  | succ n ih =>
    intro data c a k disp rest h
    simp only [decodeLoopF, List.headD_eq_head?_getD] at h
    by_cases h16 : data.length < 16
    · rw [if_pos h16] at h; cases h; omega
    · rw [if_neg h16] at h
      by_cases hbad : 4 * data.head?.getD 0 < 16
      · rw [if_pos hbad] at h; cases h
      · rw [if_neg hbad] at h
        by_cases hlen : data.length < 4 * data.head?.getD 0
        · rw [if_pos hlen] at h; cases h; omega
        · rw [if_neg hlen] at h
          have hc := ih _ _ _ _ _ _ h
          simp only [List.length_append, List.length_cons, List.length_nil] at hc
          omega

/-! ## Claims about the discovery engine tables (C2, C3, C4) -/

/-- C2: the spec's discovery scenario — SMAP roots AAPL, MSFT, AAPL (ids 11,
22, 33), then definitions for ids 11 and 22, then the cross-reference pass.
The claim expects the roots table `[AAPL, MSFT]` with 2 and 1 options; the
code instead inserts a DUPLICATE `AAPL` root (the binary search's
`last_index` starts at 0, so with `index = 1` on the first probe the
"just stepped right by 1" exit fires before `roots[0]` was ever compared),
giving `[AAPL, AAPL, MSFT]` with one option each. Cross-reference attaches
the two received definitions as the claim says. -/
theorem c2_discovery_scenario_diverges :
    (let fin := xrefPass ([Msg.smap 11 aaplSym, Msg.smap 22 msftSym, Msg.smap 33 aaplSym,
        Msg.sdef 11, Msg.sdef 22].foldl on_msg discoverInit)
     fin.roots.map DRoot.root = [[65, 65, 80, 76], [65, 65, 80, 76], [77, 83, 70, 84]] ∧
     fin.roots.map (fun r => r.options.map (fun o => (o.instrument_id, o.sdef))) =
       [[(11, some 11)], [(33, none)], [(22, some 22)]] ∧
     ¬ fin.roots.map DRoot.root = [[65, 65, 80, 76], [77, 83, 70, 84]]) := by
  decide

/-- C3: the sortedness invariant fails on the code. Processing SMAP messages
with roots "BB", "CC", "AA" (distinct instrument ids 1, 2, 3) leaves the
roots table `[BB, AA, CC]`, which is not strictly increasing in ASCII
order — the same `last_index = 0` initialization slip as in
`c2_discovery_scenario_diverges`. -/
theorem c3_sorted_invariant_fails :
    (let fin := [Msg.smap 1 bbSym, Msg.smap 2 ccSym, Msg.smap 3 aaSym].foldl on_msg discoverInit
     fin.roots.map DRoot.root = [[66, 66], [65, 65], [67, 67]] ∧
     ¬ StrictlySortedRoots fin.roots) := by
  unfold StrictlySortedRoots
  decide

/-- C4: the ERROR state is not terminal in the code. After an EMSG record is
processed while SUBSCRIBED the context is in ERROR, yet the worker, whose
receive loop has exited, still runs the cross-reference pass and
unconditionally overwrites the state with DONE. -/
theorem c4_error_overwritten_by_done :
    (workerLoop { discoverInit with state := DState.subscribed }
        [WorkerEvent.msg (Msg.emsg [101])]).state = DState.error ∧
    (worker_run discoverInit [WorkerEvent.msg (Msg.emsg [101])]).state = DState.done := by
  decide

/-! ## Lemmas about `strtol` on digit strings -/

theorem foldl_digits_cast : ∀ (s : List Nat) (a : Nat), (∀ b ∈ s, isDigitByte b) →
    s.foldl (fun (x : Int) (b : Nat) => 10 * x + ((b : Int) - 48)) (a : Int) =
      ((s.foldl (fun x b => 10 * x + (b - 48)) a : Nat) : Int) := by
  intro s
  induction s with
  | nil => intro a _; simp
  | cons b t ih =>
    intro a h
    have hb : isDigitByte b := h b (List.mem_cons_self b t)
    have hb48 : 48 ≤ b := by
      simp only [isDigitByte, Bool.and_eq_true, decide_eq_true_eq] at hb
      exact hb.1
    have step : 10 * (a : Int) + ((b : Int) - 48) = ((10 * a + (b - 48) : Nat) : Int) := by
      omega
    simp only [List.foldl_cons]
    rw [step]
    exact ih _ (fun x hx => h x (List.mem_cons_of_mem b hx))

theorem foldl_digits_lt : ∀ (s : List Nat) (a : Nat), (∀ b ∈ s, isDigitByte b) →
    s.foldl (fun x b => 10 * x + (b - 48)) a < (a + 1) * 10 ^ s.length := by
  intro s
  induction s with
  | nil => intro a _; simp
  | cons b t ih =>
    intro a h
    have hb : isDigitByte b := h b (List.mem_cons_self b t)
    have hb57 : b ≤ 57 := by
      simp only [isDigitByte, Bool.and_eq_true, decide_eq_true_eq] at hb
      exact hb.2
    simp only [List.foldl_cons, List.length_cons]
    have h1 : 10 * a + (b - 48) + 1 ≤ (a + 1) * 10 := by omega
    have h2 := ih (10 * a + (b - 48)) (fun x hx => h x (List.mem_cons_of_mem b hx))
    calc List.foldl (fun x b => 10 * x + (b - 48)) (10 * a + (b - 48)) t
        < (10 * a + (b - 48) + 1) * 10 ^ t.length := h2
      _ ≤ ((a + 1) * 10) * 10 ^ t.length := Nat.mul_le_mul_right _ h1
      _ = (a + 1) * 10 ^ (t.length + 1) := by ring

theorem c_strtol_digits (s : List Nat) (hne : s ≠ []) (h : ∀ b ∈ s, isDigitByte b) :
    c_strtol s = ((digitsNatVal s : Nat) : Int) := by
  cases s with
  | nil => exact absurd rfl hne
  | cons b t =>
    have hb : isDigitByte b := h b (List.mem_cons_self b t)
    have hb2 : 48 ≤ b ∧ b ≤ 57 := by
      simp only [isDigitByte, Bool.and_eq_true, decide_eq_true_eq] at hb
      exact hb
    have hsp : isSpaceByte b = false := by
      simp only [isSpaceByte]
      have h32 : (decide (b = 32)) = false := by
        simp only [decide_eq_false_iff_not]; omega
      have h913 : (decide (9 ≤ b) && decide (b ≤ 13)) = false := by
        have : (decide (b ≤ 13)) = false := by
          simp only [decide_eq_false_iff_not]; omega
        simp [this]
      rw [h32, h913]
      rfl
    have hdrop : (b :: t).dropWhile isSpaceByte = b :: t :=
      List.dropWhile_cons_of_neg (by simp [hsp])
    have htake : (b :: t).takeWhile isDigitByte = b :: t :=
      List.takeWhile_eq_self_iff.mpr h
    have hb43 : ¬ b = 43 := by omega
    have hb45 : ¬ b = 45 := by omega
    simp only [c_strtol, hdrop, if_neg hb43, if_neg hb45]
    simp only [digitsVal, htake]
    have hc := foldl_digits_cast (b :: t) 0 h
    simpa [digitsNatVal] using hc

theorem digitsNatVal_lt (s : List Nat) (h : ∀ b ∈ s, isDigitByte b) :
    digitsNatVal s < 10 ^ s.length := by
  have hl := foldl_digits_lt s 0 h
  simpa [digitsNatVal] using hl

/-! ## Claims about the OSI parser (C9, C10) -/

theorem toU8_of_lt (n : Nat) (h : n < 256) : toU8 ((n : Nat) : Int) = n := by
  simp only [toU8]
  rw [Int.emod_eq_of_lt (by positivity) (by exact_mod_cast h)]
  exact Int.toNat_natCast n

theorem toU64_of_lt (n : Nat) (h : n < 2 ^ 64) : toU64 ((n : Nat) : Int) = n := by
  simp only [toU64]
  rw [Int.emod_eq_of_lt (by positivity) (by exact_mod_cast h)]
  exact Int.toNat_natCast n

/-- C9 counterexample: on the 21-byte input `"A B   250815C00100000"` the
parse succeeds but the stored root is NOT "bytes 0..5 with trailing spaces
trimmed to NUL" — the code also NULs the interior space (byte 1). -/
theorem c9_counterexample :
    (osi_parse spacedRootSym osiZero).1 = true ∧
    (osi_parse spacedRootSym osiZero).2.root ≠ rootTrailTrim spacedRootSym := by
  decide

/-- C9 (amended): `osi_parse` rejects exactly the inputs whose length is not
21; on every 21-byte input it stores the root as bytes 0..5 with EVERY space
byte replaced by NUL (plus the terminating NUL), sets the call flag iff byte
12 is `'C'`, and — whenever the digit groups consist of decimal digits —
stores the two-digit decimal year/month/day values and the 8-digit decimal
strike multiplied by 1,000,000. -/
theorem c9_osi_parse_amended : ∀ (sym : List Nat) (osi : Osi),
    ((osi_parse sym osi).1 = true ↔ sym.length = 21) ∧
    (sym.length = 21 →
      (∀ b ∈ (sym.drop 6).take 2, isDigitByte b) →
      (∀ b ∈ (sym.drop 8).take 2, isDigitByte b) →
      (∀ b ∈ (sym.drop 10).take 2, isDigitByte b) →
      (∀ b ∈ (sym.drop 13).take 8, isDigitByte b) →
      osi_parse sym osi = (true,
        ⟨(sym.take 6 ++ [0]).map (fun b => if b = 32 then 0 else b),
          digitsNatVal ((sym.drop 6).take 2),
          digitsNatVal ((sym.drop 8).take 2),
          digitsNatVal ((sym.drop 10).take 2),
          decide (sym.getD 12 0 = 67),
          1000000 * digitsNatVal ((sym.drop 13).take 8)⟩)) := by
  intro sym osi
  constructor
  · constructor
    · intro h1
      by_contra hne
      simp [osi_parse, hne] at h1
    · intro h
      simp [osi_parse, h]
  · intro h h6 h8 h10 h13
    have hl6 : ((sym.drop 6).take 2).length = 2 := by simp [h]
    have hl8 : ((sym.drop 8).take 2).length = 2 := by simp [h]
    have hl10 : ((sym.drop 10).take 2).length = 2 := by simp [h]
    have hl13 : ((sym.drop 13).take 8).length = 8 := by simp [h]
    have hne6 : (sym.drop 6).take 2 ≠ [] := by
      intro hh; rw [hh] at hl6; simp at hl6
    have hne8 : (sym.drop 8).take 2 ≠ [] := by
      intro hh; rw [hh] at hl8; simp at hl8
    have hne10 : (sym.drop 10).take 2 ≠ [] := by
      intro hh; rw [hh] at hl10; simp at hl10
    have hne13 : (sym.drop 13).take 8 ≠ [] := by
      intro hh; rw [hh] at hl13; simp at hl13
    have hv6 := c_strtol_digits _ hne6 h6
    have hv8 := c_strtol_digits _ hne8 h8
    have hv10 := c_strtol_digits _ hne10 h10
    have hv13 := c_strtol_digits _ hne13 h13
    have hlt6 := digitsNatVal_lt _ h6
    have hlt8 := digitsNatVal_lt _ h8
    have hlt10 := digitsNatVal_lt _ h10
    have hlt13 := digitsNatVal_lt _ h13
    rw [hl6] at hlt6
    rw [hl8] at hlt8
    rw [hl10] at hlt10
    rw [hl13] at hlt13
    norm_num at hlt6 hlt8 hlt10 hlt13
    have e6 : toU8 (c_strtol ((sym.drop 6).take 2)) = digitsNatVal ((sym.drop 6).take 2) := by
      rw [hv6]; exact toU8_of_lt _ (by omega)
    have e8 : toU8 (c_strtol ((sym.drop 8).take 2)) = digitsNatVal ((sym.drop 8).take 2) := by
      rw [hv8]; exact toU8_of_lt _ (by omega)
    have e10 : toU8 (c_strtol ((sym.drop 10).take 2)) = digitsNatVal ((sym.drop 10).take 2) := by
      rw [hv10]; exact toU8_of_lt _ (by omega)
    have e13 : toU64 (1000000 * c_strtol ((sym.drop 13).take 8)) =
        1000000 * digitsNatVal ((sym.drop 13).take 8) := by
      rw [hv13]
      have hcast : (1000000 : Int) * ((digitsNatVal ((sym.drop 13).take 8) : Nat) : Int) =
          ((1000000 * digitsNatVal ((sym.drop 13).take 8) : Nat) : Int) := by
        push_cast; ring
      rw [hcast]
      exact toU64_of_lt _ (by omega)
    simp only [osi_parse, if_neg (show ¬ sym.length ≠ 21 by simp [h]), e6, e8, e10, e13]

/-- C9 witness: the spec's concrete example `"TSLA  250815C00100000"` through
the amended theorem — root `"TSLA"`, year 25, month 8, day 15, call, strike
100,000,000,000. -/
theorem c9_witness :
    osi_parse tslaSym osiZero =
      (true, ⟨[84, 83, 76, 65, 0, 0, 0], 25, 8, 15, true, 100000000000⟩) :=
  ((c9_osi_parse_amended tslaSym osiZero).2 (by decide) (by decide) (by decide)
    (by decide) (by decide)).trans (by decide)

/-- C10: whenever the input length is not exactly 21, `osi_parse` returns
`false` without touching the caller's record. -/
theorem c10_reject_is_atomic : ∀ (sym : List Nat) (osi : Osi),
    sym.length ≠ 21 → osi_parse sym osi = (false, osi) := by
  intro sym osi h
  simp [osi_parse, h]

/-- C10 witness: a 2-byte input leaves a scribbled-on record exactly as it
was. -/
theorem c10_witness :
    osi_parse [65, 66] ⟨[7, 7, 7, 7, 7, 7, 7], 1, 2, 3, true, 9⟩ =
      (false, ⟨[7, 7, 7, 7, 7, 7, 7], 1, 2, 3, true, 9⟩) :=
  c10_reject_is_atomic _ _ (by decide)

/-! ## Claims about the `dbn_get` contract (C5, C6) -/

/-- C5: `dbn_get` returns the number of records dispatched on the call when
no error is reported; on transport EOF it invokes the error handler fatally
with `connectionLost` and returns failure; on signal interruption it returns
zero with no error-handler invocation and no state change. -/
theorem c5_get_return_contract :
    (∀ st d, (dbn_get st (.bytes d)).errors = [] →
      (dbn_get st (.bytes d)).ret = ((dbn_get st (.bytes d)).dispatched.length : Int)) ∧
    (∀ st, dbn_get st .closed = ⟨-1, [], [(true, ErrKind.connectionLost)], st⟩) ∧
    (∀ st, dbn_get st .interrupted = ⟨0, [], [], st⟩) := by
  refine ⟨?_, fun st => rfl, fun st => rfl⟩
  intro st d h
  simp only [dbn_get] at h ⊢
  by_cases hov : st.leftover.length ≠ 0 ∧ st.leftover.length + d.length > st.capacity
  · rw [if_pos hov] at h
    simp at h
  · rw [if_neg hov] at h ⊢
    cases hdl : decodeLoop (st.leftover ++ d) 0 [] with
    | badLength k disp r =>
      rw [hdl] at h
      simp at h
    | done k disp rest =>
      have hk := decodeLoopF_done_count _ _ _ _ _ _ _ hdl
      simp only [List.length_nil] at hk
      simp
      omega

/-- C5 witness: a single complete 16-byte record delivered to a fresh
session reports no error and returns the dispatch count. -/
theorem c5_witness :
    (dbn_get ⟨2000, []⟩ (.bytes [4, 0, 0, 0, 0, 0, 0, 0, 0, 0, 0, 0, 0, 0, 0, 0])).errors = [] ∧
    (dbn_get ⟨2000, []⟩ (.bytes [4, 0, 0, 0, 0, 0, 0, 0, 0, 0, 0, 0, 0, 0, 0, 0])).ret =
      ((dbn_get ⟨2000, []⟩
        (.bytes [4, 0, 0, 0, 0, 0, 0, 0, 0, 0, 0, 0, 0, 0, 0, 0])).dispatched.length : Int) :=
  ⟨by decide, c5_get_return_contract.1 _ _ (by decide)⟩

/-- C6: each of the three conditions is a fatal `protocolError`: a preamble
whose first three bytes are not `"DBN"`, a preamble version byte other than
1, and a record header whose decoded length `4 * rlength` is below 16 during
`dbn_get` (error handler invoked with fatal=true, the operation returns
failure). -/
theorem c6_fatal_protocol_errors :
    (∀ pre : List Nat, pre.length = 8 → pre.take 3 ≠ [68, 66, 78] →
      dbn_start_preamble pre = .error (true, ErrKind.protocolError)) ∧
    (∀ pre : List Nat, pre.length = 8 → pre.take 3 = [68, 66, 78] → pre.getD 3 0 ≠ 1 →
      dbn_start_preamble pre = .error (true, ErrKind.protocolError)) ∧
    (∀ (cap : Nat) (d : List Nat), 16 ≤ d.length → 4 * d.headD 0 < 16 →
      dbn_get ⟨cap, []⟩ (.bytes d) =
        ⟨-1, [], [(true, ErrKind.protocolError)], ⟨cap, []⟩⟩) := by
  refine ⟨?_, ?_, ?_⟩
  · intro pre _ hsig
    simp [dbn_start_preamble, hsig]
  · intro pre _ hsig hver
    simp only [List.getD_eq_getElem?_getD] at hver
    simp [dbn_start_preamble, hsig, hver]
  · intro cap d hlen hbad
    simp only [dbn_get, List.length_nil, ne_eq, not_true_eq_false, false_and, if_false,
      List.nil_append]
    rw [decodeLoop_eq]
    rw [if_neg (by omega), if_pos hbad]

/-- C6 witness: preamble `"XBN\x01..."`, preamble `"DBN\x02..."`, and a
16-byte delivery whose first byte decodes to record length 8 (`rlength = 2`),
all fatal protocol errors. -/
theorem c6_witness :
    dbn_start_preamble [88, 66, 78, 1, 0, 0, 0, 0] = .error (true, ErrKind.protocolError) ∧
    dbn_start_preamble [68, 66, 78, 2, 0, 0, 0, 0] = .error (true, ErrKind.protocolError) ∧
    dbn_get ⟨2000, []⟩ (.bytes [2, 0, 0, 0, 0, 0, 0, 0, 0, 0, 0, 0, 0, 0, 0, 0]) =
      ⟨-1, [], [(true, ErrKind.protocolError)], ⟨2000, []⟩⟩ :=
  ⟨c6_fatal_protocol_errors.1 _ (by decide) (by decide),
    c6_fatal_protocol_errors.2.1 _ (by decide) (by decide) (by decide),
    c6_fatal_protocol_errors.2.2 _ _ (by decide) (by decide)⟩

/-! ## Lemmas about the subscription chunk loop -/

theorem subChunksF_succ (schema symbology suffix : String) (replay : Bool) (f : Nat)
    (roots : List String) :
    subChunksF schema symbology suffix replay (f + 1) roots =
      if roots.length ≤ 1000 then [chunkLine schema symbology roots suffix replay true]
      else chunkLine schema symbology (roots.take 1000) suffix replay false ::
        subChunksF schema symbology suffix replay f (roots.drop 1000) := rfl

theorem subChunksF_congr (schema symbology suffix : String) (replay : Bool) :
    ∀ f1 f2 (roots : List String), 1 ≤ f1 → roots.length ≤ f1 → 1 ≤ f2 → roots.length ≤ f2 →
      subChunksF schema symbology suffix replay f1 roots =
        subChunksF schema symbology suffix replay f2 roots := by
  intro f1
  induction f1 with
  | zero => intro f2 roots h1; omega
  | succ n ih =>
    intro f2 roots _ hl1 hf2 hl2
    cases f2 with
    | zero => omega
    | succ m =>
      rw [subChunksF_succ, subChunksF_succ]
      by_cases hsm : roots.length ≤ 1000
      · rw [if_pos hsm, if_pos hsm]
      · rw [if_neg hsm, if_neg hsm]
        congr 1
        apply ih
        · omega
        · simp only [List.length_drop]; omega
        · omega
        · simp only [List.length_drop]; omega

theorem subscribeChunks_eq (schema symbology suffix : String) (replay : Bool)
    (roots : List String) :
    subscribeChunks schema symbology suffix replay roots =
      if roots.length ≤ 1000 then [chunkLine schema symbology roots suffix replay true]
      else chunkLine schema symbology (roots.take 1000) suffix replay false ::
        subscribeChunks schema symbology suffix replay (roots.drop 1000) := by
  unfold subscribeChunks
  rw [subChunksF_succ]
  by_cases hsm : roots.length ≤ 1000
  · rw [if_pos hsm, if_pos hsm]
  · rw [if_neg hsm, if_neg hsm]
    congr 1
    apply subChunksF_congr
    · omega
    · simp only [List.length_drop]; omega
    · omega
    · omega

theorem subscribeChunks_closed : ∀ (n : Nat) (roots : List String)
    (schema symbology suffix : String) (replay : Bool), roots.length = n → 1 ≤ n →
    subscribeChunks schema symbology suffix replay roots =
      (List.range ((n + 999) / 1000)).map
        (fun i => chunkLine schema symbology ((roots.drop (1000 * i)).take 1000) suffix replay
          (decide (n ≤ 1000 * i + 1000))) := by
  intro n
  induction n using Nat.strong_induction_on with
  | _ n ih =>
    intro roots schema symbology suffix replay hlen hpos
    rw [subscribeChunks_eq]
    by_cases hsm : roots.length ≤ 1000
    · rw [if_pos hsm]
      have hq : (n + 999) / 1000 = 1 := by omega
      rw [hq, show List.range 1 = [0] from rfl]
      simp only [List.map_cons, List.map_nil, Nat.mul_zero, List.drop_zero]
      have ht : roots.take 1000 = roots := List.take_of_length_le (by omega)
      have hd : decide (n ≤ 1000 * 0 + 1000) = true := by
        simp only [decide_eq_true_eq]; omega
      rw [ht, hd]
    · rw [if_neg hsm]
      have hq : (n + 999) / 1000 = ((n - 1000) + 999) / 1000 + 1 := by omega
      rw [hq, List.range_succ_eq_map]
      simp only [List.map_cons, List.map_map]
      have hd0 : decide (n ≤ 1000 * 0 + 1000) = false := by
        simp only [decide_eq_false_iff_not]; omega
      rw [hd0, Nat.mul_zero, List.drop_zero]
      congr 1
      have htail := ih (n - 1000) (by omega) (roots.drop 1000) schema symbology suffix replay
        (by simp only [List.length_drop]; omega) (by omega)
      rw [htail]
      apply List.map_congr_left
      intro i _
      simp only [Function.comp_apply, Nat.succ_eq_add_one]
      have hdd : (roots.drop 1000).drop (1000 * i) = roots.drop (1000 * (i + 1)) := by
        rw [List.drop_drop]
        congr 1
        ring
      rw [hdd]
      have hde : decide (n - 1000 ≤ 1000 * i + 1000) = decide (n ≤ 1000 * (i + 1) + 1000) := by
        apply decide_eq_decide.mpr
        constructor <;> intro <;> omega
      rw [hde]

/-! ## Claim about the subscription protocol (C7) -/

/-- C7: zero symbols produce the single `ALL_SYMBOLS` line with no `is_last`
field; a non-empty symbol list produces one line per 1000-symbol group, each
group the corresponding 1000-symbol slice with every symbol suffixed and
comma-separated (see `chunkLine`), with `is_last=1` exactly on the final
group; 2001 symbols with suffix `".OPT"` produce exactly three lines
carrying 1000, 1000 and 1 symbols with `is_last` 0, 0, 1; and `dbn_start`
then sends the literal `start_session=0` line. -/
theorem c7_subscription_batching : ∀ (schema symbology suffix : String) (replay : Bool)
    (roots : List String) (r : String),
    (dbn_start_lines schema symbology [] suffix replay =
      ["schema=" ++ schema ++ "|stype_in=" ++ symbology ++
        (if replay then "|start=0" else "") ++ "|symbols=ALL_SYMBOLS\n"]) ∧
    (roots ≠ [] →
      dbn_start_lines schema symbology roots suffix replay =
        (List.range ((roots.length + 999) / 1000)).map
          (fun i => chunkLine schema symbology ((roots.drop (1000 * i)).take 1000) suffix replay
            (decide (roots.length ≤ 1000 * i + 1000)))) ∧
    (dbn_start_lines schema symbology (List.replicate 2001 r) ".OPT" replay =
      [chunkLine schema symbology (List.replicate 1000 r) ".OPT" replay false,
        chunkLine schema symbology (List.replicate 1000 r) ".OPT" replay false,
        chunkLine schema symbology (List.replicate 1 r) ".OPT" replay true]) ∧
    (dbn_start_sent schema symbology roots suffix replay =
      dbn_start_lines schema symbology roots suffix replay ++ ["start_session=0\n"]) := by
  intro schema symbology suffix replay roots r
  refine ⟨by simp [dbn_start_lines], ?_, ?_, rfl⟩
  · intro hne
    have hpos : 1 ≤ roots.length := List.length_pos.mpr hne
    rw [dbn_start_lines, if_neg (by omega)]
    exact subscribeChunks_closed roots.length roots schema symbology suffix replay rfl hpos
  · rw [dbn_start_lines, if_neg (by simp only [List.length_replicate]; omega)]
    rw [subscribeChunks_eq, if_neg (by simp only [List.length_replicate]; omega)]
    rw [List.take_replicate, List.drop_replicate]
    rw [show min 1000 2001 = 1000 by omega, show 2001 - 1000 = 1001 by omega]
    rw [subscribeChunks_eq, if_neg (by simp only [List.length_replicate]; omega)]
    rw [List.take_replicate, List.drop_replicate]
    rw [show min 1000 1001 = 1000 by omega, show 1001 - 1000 = 1 by omega]
    rw [subscribeChunks_eq, if_pos (by simp only [List.length_replicate]; omega)]

/-- C7 witness: one symbol `"ES"` with suffix `".OPT"` and replay set — a
single group with `is_last=1`, then the `start_session=0` line. -/
theorem c7_witness :
    dbn_start_lines "definition" "parent" ["ES"] ".OPT" true =
      ["schema=definition|stype_in=parent|start=0|is_last=1|symbols=ES.OPT\n"] ∧
    dbn_start_sent "definition" "parent" ["ES"] ".OPT" true =
      ["schema=definition|stype_in=parent|start=0|is_last=1|symbols=ES.OPT\n",
        "start_session=0\n"] := by
  have h := c7_subscription_batching "definition" "parent" ".OPT" true ["ES"] "ES"
  have h2 := h.2.1 (by simp)
  constructor
  · rw [h2]
    rfl
  · rw [h.2.2.2, h2]
    rfl

/-! ## Lemmas about the authentication token encoding -/

theorem foldRange_hex : ∀ (n : Nat) (l : List Nat) (acc : List Char), l.length = n →
    (List.range n).foldl (fun a i => a ++ hexByte (l.getD i 0)) acc =
      acc ++ (l.map hexByte).flatten := by
  intro n
  induction n with
  | zero =>
    intro l acc hl
    have : l = [] := List.length_eq_zero.mp hl
    subst this
    simp
  | succ m ih =>
    intro l acc hl
    cases l with
    | nil => simp at hl
    | cons b t =>
      rw [List.range_succ_eq_map]
      simp only [List.foldl_cons, List.foldl_map, List.getD_cons_zero, List.getD_cons_succ]
      rw [ih t (acc ++ hexByte b) (by simpa using hl)]
      simp [List.append_assoc]

theorem hexLoop_eq_lowercaseHex (l : List Nat) (hl : l.length = 32) :
    hexLoop l = lowercaseHex l := by
  unfold hexLoop lowercaseHex
  rw [foldRange_hex 32 l [] hl]
  rfl

theorem flatten_hex_length : ∀ (l : List Nat), (l.map hexByte).flatten.length = 2 * l.length := by
  intro l
  induction l with
  | nil => simp
  | cons b t ih =>
    simp only [List.map_cons, List.flatten_cons, List.length_append, ih, List.length_cons]
    have : (hexByte b).length = 2 := rfl
    omega

theorem hexDigit_mem (n : Nat) : "0123456789abcdef".toList.getD n '0' ∈ "0123456789abcdef".toList := by
  by_cases h : n < 16
  · rw [List.getD_eq_getElem _ _ (by simpa using h)]
    exact List.getElem_mem _
  · rw [List.getD_eq_default _ _ (by simpa using h)]
    decide

theorem hexByte_chars (b : Nat) : ∀ c ∈ hexByte b, c ∈ "0123456789abcdef".toList := by
  intro c hc
  simp only [hexByte, List.mem_cons, List.not_mem_nil, or_false] at hc
  rcases hc with h | h <;> (subst h; exact hexDigit_mem _)

theorem lastFive_eq_drop (l : List Char) (h : 5 ≤ l.length) :
    (l.reverse.take 5).reverse = l.drop (l.length - 5) := by
  have h1 : (l.drop (l.length - 5)).reverse = l.reverse.take 5 := by
    rw [List.reverse_drop]
    congr 1
    omega
  rw [← h1, List.reverse_reverse]

/-! ## Claim about the authentication line (C8) -/

/-- C8: with `H` standing for libsodium's `crypto_hash_sha256` (the hash is
computed by the external library; the repository's code builds the hashed
string and encodes the digest), the line `dbn_connect` sends is exactly
`auth=<lowercase hex of H(cram ++ "|" ++ api_key)>-<last five characters of
the api key>|dataset=<dataset>|encoding=dbn|ts_out=<0|1>` terminated by a
newline; the token body is 64 characters, all lowercase hex digits. -/
theorem c8_auth_line : ∀ (H : String → List Nat) (cram api_key dataset : String) (ts_out : Bool),
    5 ≤ api_key.length →
    (H (cram ++ "|" ++ api_key)).length = 32 →
    (dbn_connect_auth_line H cram api_key dataset ts_out =
      "auth=" ++ lowercaseHex (H (cram ++ "|" ++ api_key)) ++ "-" ++ lastFive api_key ++
        "|dataset=" ++ dataset ++ "|encoding=dbn|ts_out=" ++
        (if ts_out then "1" else "0") ++ "\n") ∧
    (lowercaseHex (H (cram ++ "|" ++ api_key))).length = 64 ∧
    (∀ c ∈ (lowercaseHex (H (cram ++ "|" ++ api_key))).toList,
      c ∈ "0123456789abcdef".toList) := by
  intro H cram api_key dataset ts_out hkey hlen
  refine ⟨?_, ?_, ?_⟩
  · unfold dbn_connect_auth_line ccram bucketId lastFive
    rw [hexLoop_eq_lowercaseHex _ hlen]
    rw [lastFive_eq_drop api_key.toList hkey]
    have : api_key.toList.length = api_key.length := rfl
    rw [this]
  · unfold lowercaseHex
    show (((H (cram ++ "|" ++ api_key)).map hexByte).flatten).length = 64
    rw [flatten_hex_length, hlen]
  · intro c hc
    unfold lowercaseHex at hc
    have hc2 : c ∈ ((H (cram ++ "|" ++ api_key)).map hexByte).flatten := hc
    rw [List.mem_flatten] at hc2
    obtain ⟨chs, hchs, hcm⟩ := hc2
    rw [List.mem_map] at hchs
    obtain ⟨b, _, hb⟩ := hchs
    exact hexByte_chars b c (hb ▸ hcm)

/-- C8 witness: a constant stand-in digest, the spec's example api key
`"XXXXX-YYYZZ"` and dataset `OPRA.PILLAR` with `ts_out` on. -/
theorem c8_witness :
    dbn_connect_auth_line (fun _ => List.replicate 32 171) "ABC" "XXXXX-YYYZZ" "OPRA.PILLAR"
        true =
      "auth=" ++ lowercaseHex (List.replicate 32 171) ++ "-" ++ lastFive "XXXXX-YYYZZ" ++
        "|dataset=" ++ "OPRA.PILLAR" ++ "|encoding=dbn|ts_out=" ++
        (if true then "1" else "0") ++ "\n" :=
  (c8_auth_line (fun _ => List.replicate 32 171) "ABC" "XXXXX-YYYZZ" "OPRA.PILLAR" true
    (by decide) (by decide)).1

/-! ## Claim C1: re-framing across arbitrary delivery partitions -/

theorem valid_ne_nil {r : List Nat} (hv : ValidRecord r) : r ≠ [] := by
  intro h
  have h16 := hv.1
  rw [h] at h16
  simp at h16

theorem headD_take (r : List Nat) (k : Nat) (hk : 1 ≤ k) (hr : r ≠ []) :
    (r.take k).headD 0 = r.headD 0 := by
  cases r with
  | nil => exact absurd rfl hr
  | cons x xs =>
    cases k with
    | zero => omega
    | succ m => simp

theorem decodeLoop_stop (data r : List Nat) (hv : ValidRecord r)
    (hlt : data.length < r.length) (hpre : data = r.take data.length)
    (c : Nat) (a : List (List Nat)) :
    decodeLoop data c a = .done c a data := by
  rw [decodeLoop_eq]
  by_cases h16 : data.length < 16
  · rw [if_pos h16]
  · rw [if_neg h16]
    have hhead : data.headD 0 = r.headD 0 := by
      conv_lhs => rw [hpre]
      exact headD_take r data.length (by omega) (valid_ne_nil hv)
    have h4 : 4 * r.headD 0 = r.length := hv.2.1.symm
    rw [hhead, h4]
    rw [if_neg (by have := hv.1; omega), if_pos hlt]

theorem decodeLoop_step (r data2 : List Nat) (hv : ValidRecord r)
    (c : Nat) (a : List (List Nat)) :
    decodeLoop (r ++ data2) c a = decodeLoop data2 (c + 1) (a ++ [r]) := by
  rw [decodeLoop_eq]
  have h16 := hv.1
  have hhead : (r ++ data2).headD 0 = r.headD 0 := by
    cases r with
    | nil => exact absurd rfl (valid_ne_nil hv)
    | cons x xs => simp
  have hlen : (r ++ data2).length = r.length + data2.length := by simp
  have h4 : 4 * r.headD 0 = r.length := hv.2.1.symm
  rw [hhead, h4]
  rw [if_neg (by omega), if_neg (by omega), if_neg (by omega)]
  rw [show (r ++ data2).drop r.length = data2 from List.drop_left r data2,
    show (r ++ data2).take r.length = r from List.take_left r data2]

theorem decode_stream : ∀ (rs : List (List Nat)), (∀ r ∈ rs, ValidRecord r) →
    ∀ (data rest0 : List Nat) (c : Nat) (a : List (List Nat)),
    data ++ rest0 = rs.flatten →
    ∃ rs1 rs2 p,
      rs = rs1 ++ rs2 ∧
      data = rs1.flatten ++ p ∧
      decodeLoop data c a = .done (c + rs1.length) (a ++ rs1) p ∧
      IncompleteFor p rs2 := by
  intro rs
  induction rs with
  | nil =>
    intro _ data rest0 c a heq
    have hdata : data = [] := by
      have hl := congrArg List.length heq
      simp only [List.length_append, List.flatten_nil, List.length_nil] at hl
      exact List.length_eq_zero.mp (by omega)
    subst hdata
    refine ⟨[], [], [], rfl, rfl, ?_, Or.inl rfl⟩
    rw [decodeLoop_eq]
    simp
  | cons r rs ih =>
    intro hv data rest0 c a heq
    have hvr : ValidRecord r := hv r (by simp)
    have hvs : ∀ x ∈ rs, ValidRecord x := fun x hx => hv x (by simp [hx])
    rw [List.flatten_cons] at heq
    by_cases hbig : r.length ≤ data.length
    · have htake : data.take r.length = r := by
        have e1 : (data ++ rest0).take r.length = data.take r.length :=
          List.take_append_of_le_length hbig
        rw [heq, List.take_left] at e1
        exact e1.symm
      have hdeq : data = r ++ data.drop r.length := by
        conv_lhs => rw [← List.take_append_drop r.length data]
        rw [htake]
      have hrest : (data.drop r.length) ++ rest0 = rs.flatten := by
        have e2 : (data ++ rest0).drop r.length = data.drop r.length ++ rest0 :=
          List.drop_append_of_le_length hbig
        rw [heq, List.drop_left] at e2
        exact e2.symm
      obtain ⟨rs1, rs2, p, hsplit, hdata, hloop, hinc⟩ :=
        ih hvs (data.drop r.length) rest0 (c + 1) (a ++ [r]) hrest
      refine ⟨r :: rs1, rs2, p, by rw [List.cons_append, ← hsplit], ?_, ?_, hinc⟩
      · conv_lhs => rw [hdeq, hdata]
        simp [List.append_assoc]
      · conv_lhs => rw [hdeq]
        rw [decodeLoop_step r _ hvr c a, hloop]
        congr 1
        · simp only [List.length_cons]
          omega
        · simp
    · push_neg at hbig
      have hpre : data = r.take data.length := by
        have e1 : (data ++ rest0).take data.length = data := List.take_left' rfl
        rw [heq, List.take_append_of_le_length (by omega)] at e1
        exact e1.symm
      refine ⟨[], r :: rs, data, rfl, by simp, ?_, Or.inr ⟨r, rs, rfl, hbig, hpre⟩⟩
      rw [decodeLoop_stop data r hvr hbig hpre c a]
      simp

theorem dbn_get_done (cap : Nat) (p d : List Nat) (k : Nat) (disp : List (List Nat))
    (rest : List Nat) (hov : ¬(p.length ≠ 0 ∧ p.length + d.length > cap))
    (hloop : decodeLoop (p ++ d) 0 [] = .done k disp rest) :
    dbn_get ⟨cap, p⟩ (.bytes d) = ⟨(k : Int), disp, [], ⟨cap, rest⟩⟩ := by
  simp only [dbn_get]
  rw [if_neg hov]
  have h2 : decodeLoop ((⟨cap, p⟩ : Dbn).leftover ++ d) 0 [] = .done k disp rest := hloop
  rw [h2]

theorem run_invariant : ∀ (ds rs : List (List Nat)) (p : List Nat) (cap : Nat),
    (∀ r ∈ rs, ValidRecord r) →
    IncompleteFor p rs →
    p ++ ds.flatten = rs.flatten →
    (∀ d ∈ ds, d.length + 1020 ≤ cap) →
    runDeliveries ⟨cap, p⟩ ds = some (rs, ⟨cap, []⟩) := by
  intro ds
  induction ds with
  | nil =>
    intro rs p cap hv hinc heq _
    simp only [List.flatten_nil, List.append_nil] at heq
    rcases hinc with hp | ⟨r, rs2, hrs, hlt, _⟩
    · subst hp
      have hrs : rs = [] := by
        cases rs with
        | nil => rfl
        | cons r t =>
          exfalso
          have hvr : ValidRecord r := hv r (by simp)
          have h16 := hvr.1
          have hl := congrArg List.length heq
          simp [List.flatten_cons] at hl
          omega
      subst hrs
      simp [runDeliveries]
    · exfalso
      subst hrs
      have hl := congrArg List.length heq
      simp [List.flatten_cons] at hl
      omega
  | cons d ds ih =>
    intro rs p cap hv hinc heq hcap
    have hplen : p.length ≤ 1019 := by
      rcases hinc with hp | ⟨r, rs2, hrs, hlt, _⟩
      · subst hp; simp
      · have hvr : ValidRecord r := hv r (by rw [hrs]; simp)
        have h2 := hvr.2.1
        have h3 := hvr.2.2
        omega
    have hdcap := hcap d (by simp)
    have heq2 : (p ++ d) ++ ds.flatten = rs.flatten := by
      rw [List.append_assoc, ← List.flatten_cons]
      exact heq
    obtain ⟨rs1, rs2, p2, hsplit, hdata, hloop, hinc2⟩ :=
      decode_stream rs hv (p ++ d) ds.flatten 0 [] heq2
    have hv2 : ∀ x ∈ rs2, ValidRecord x := by
      intro x hx
      exact hv x (by rw [hsplit]; exact List.mem_append_right _ hx)
    have hstream : p2 ++ ds.flatten = rs2.flatten := by
      have hall : rs1.flatten ++ (p2 ++ ds.flatten) = rs1.flatten ++ rs2.flatten := by
        rw [← List.append_assoc, ← hdata, heq2, hsplit]
        simp [List.flatten_append]
      exact List.append_cancel_left hall
    have hrun := ih rs2 p2 cap hv2 hinc2 hstream (fun x hx => hcap x (by simp [hx]))
    simp only [runDeliveries]
    rw [dbn_get_done cap p d _ _ _ (by
      intro hov
      exact absurd hov.2 (by omega)) hloop]
    show (runDeliveries ⟨cap, p2⟩ ds).map (fun q => (rs1 ++ q.1, q.2)) = some (rs, ⟨cap, []⟩)
    rw [hrun]
    simp [hsplit]

/-- C1: for every sequence of valid records and every partition of their
byte concatenation into kernel deliveries (including cuts inside a header),
repeated `dbn_get` calls starting with an empty leftover buffer dispatch
exactly the record sequence, in wire order, with no error; bytes of an
incomplete record are carried in the leftover buffer between calls, which is
empty again at the end. The capacity hypothesis reflects the code's overflow
guard: a leftover (always at most 1019 bytes) plus a delivery must fit the
buffer. -/
theorem c1_reframing_invariance : ∀ (cap : Nat) (rs ds : List (List Nat)),
    (∀ r ∈ rs, ValidRecord r) →
    ds.flatten = rs.flatten →
    (∀ d ∈ ds, d.length + 1020 ≤ cap) →
    runDeliveries ⟨cap, []⟩ ds = some (rs, ⟨cap, []⟩) := by
  intro cap rs ds hv heq hcap
  exact run_invariant ds rs [] cap hv (Or.inl rfl) (by simpa using heq) hcap

/-- C1 witness: the spec's framing scenario — a 4-byte delivery (half a
header) followed by a 12-byte delivery dispatches exactly the one 16-byte
record their concatenation forms. -/
theorem c1_witness :
    runDeliveries ⟨2000, []⟩ [[4, 0, 0, 0], [0, 0, 0, 0, 0, 0, 0, 0, 0, 0, 0, 0]] =
      some ([[4, 0, 0, 0, 0, 0, 0, 0, 0, 0, 0, 0, 0, 0, 0, 0]], ⟨2000, []⟩) :=
  c1_reframing_invariance 2000 [[4, 0, 0, 0, 0, 0, 0, 0, 0, 0, 0, 0, 0, 0, 0, 0]]
    [[4, 0, 0, 0], [0, 0, 0, 0, 0, 0, 0, 0, 0, 0, 0, 0]] (by decide) (by decide) (by decide)
